import Mathlib

/-!
Verification development for the `local_photos` media server
(`src/server.js`).  The file-system is modeled as a finite tree of
nodes; absolute paths are modeled as lists of path segments; JS strings
are modeled as Lean strings (sequences of characters).  Modification
times are not modeled (no claim mentions them); every other field of the
source's data shapes is carried.
-/

namespace LocalPhotos

/-- A node of the scanned file-system tree.
`statOk` models whether `fs.statSync` succeeds when the node is visited
as a child entry; `readable` models whether `fs.readdirSync` succeeds on
a directory.  `size` models `stat.size`. -/
inductive FSNode where
  | file (name : String) (statOk : Bool) (size : Nat)
  | dir (name : String) (readable : Bool) (statOk : Bool) (size : Nat)
      (children : List FSNode)
deriving Repr

def nodeName : FSNode → String
  | .file nm _ _ => nm
  | .dir nm _ _ _ _ => nm

def nodeStatOk : FSNode → Bool
  | .file _ ok _ => ok
  | .dir _ _ ok _ _ => ok

def isDirNode : FSNode → Bool
  | .file _ _ _ => false
  | .dir _ _ _ _ _ => true

def nodeChildren : FSNode → List FSNode
  | .file _ _ _ => []
  | .dir _ _ _ _ cs => cs

/-- Whether `fs.readdirSync` succeeds on the node (always fails on a
plain file, which is what `readdirSync` does). -/
def dirReadable : FSNode → Bool
  | .file _ _ _ => false
  | .dir _ rd _ _ _ => rd

/-! ## String primitives

JS strings are sequences of characters; the string primitives the
server uses (`split`, `toLowerCase`, `startsWith`, joining) are modeled
on the character list of a Lean string. -/

/-- `s.split(sep)` on the character list: `splitOnChar sep l` is the
list of chunks of `l` between occurrences of `sep`. -/
def splitOnChar (sep : Char) : List Char → List (List Char)
  | [] => [[]]
  | c :: rest =>
    match splitOnChar sep rest with
    | [] => [[]]
    | g :: gs => if c = sep then [] :: g :: gs else (c :: g) :: gs

/-- `s.split(sep)` producing strings. -/
def strSplit (s : String) (sep : Char) : List String :=
  (splitOnChar sep s.data).map fun cs => String.mk cs

/-- ASCII lower-casing of one character (the extension sets are ASCII,
so this is all `toLowerCase` is used for). -/
def lowerChar (c : Char) : Char :=
  if 'A' ≤ c ∧ c ≤ 'Z' then Char.ofNat (c.toNat + 32) else c

/-- `s.toLowerCase()`. -/
def strToLower (s : String) : String :=
  String.mk (s.data.map lowerChar)

/-- `parts.join("/")`. -/
def joinWithSlash (parts : List String) : String :=
  String.mk (List.intercalate ['/'] (parts.map fun d => d.data))

/-! ## EntryClassifier (`isMediaFile`, `getMediaType`, server.js:24-36) -/

def imageExts : List String :=
  [".jpg", ".jpeg", ".png", ".gif", ".webp", ".bmp", ".tiff", ".svg"]

def videoExts : List String :=
  [".mp4", ".avi", ".mov", ".wmv", ".flv", ".webm", ".mkv", ".m4v"]

/-- Model of Node's `path.extname`: the suffix from the last dot,
including the dot; empty when there is no dot or when the only dot is
the leading character (dot-files). -/
def extname (filename : String) : String :=
  match splitOnChar '.' filename.data with
  | [] => ""
  | [_] => ""
  | [] :: [_] => ""
  | parts => String.mk ('.' :: parts.getLastD [])

/-- `isMediaFile` (server.js:24-29). -/
def isMediaFile (filename : String) : Bool :=
  let ext := strToLower (extname filename)
  imageExts.contains ext || videoExts.contains ext

/-- `getMediaType` (server.js:32-36). -/
def getMediaType (filename : String) : String :=
  let ext := strToLower (extname filename)
  if videoExts.contains ext then "video" else "image"

/-! ## Path model

Absolute paths are lists of segments under a fixed filesystem root;
`collapse` performs the `.`/`..`/empty-segment normalization that
`path.join` applies (with an absolute left operand, `..` above the top
is dropped, as in Node). -/

def collapse : List String → List String → List String
  | acc, [] => acc.reverse
  | acc, s :: rest =>
    if s = "" ∨ s = "." then collapse acc rest
    else if s = ".." then
      match acc with
      | [] => collapse [] rest
      | _ :: as => collapse as rest
    else collapse (s :: acc) rest

/-- `path.join(base, rel)` on an absolute `base`, in segment form. -/
def joinSegs (base rel : List String) : List String :=
  collapse [] (base ++ rel)

def commonPrefixLen : List String → List String → Nat
  | a :: as, b :: bs => if a = b then commonPrefixLen as bs + 1 else 0
  | _, _ => 0

/-- `path.relative(base, target)` on normalized absolute segment paths:
climb out of the non-common part of `base`, then descend into the
non-common part of `target`. -/
def relSegs (base target : List String) : List String :=
  List.replicate (base.length - commonPrefixLen base target) ".."
    ++ target.drop (commonPrefixLen base target)

/-- The string rendering of an absolute segment path: `/` before every
segment (so `["photos","b"]` renders as `"/photos/b"`). -/
def strOfSegs (segs : List String) : String :=
  segs.foldl (fun acc s => acc ++ "/" ++ s) ""

/-- JS `s.startsWith(pre)`: a character-prefix test. -/
def jsStartsWith (s pre : String) : Bool :=
  pre.data.isPrefixOf s.data

/-- A path segment with no special meaning for normalization. -/
def isPlainSeg (s : String) : Bool :=
  !(s == "" || s == "." || s == "..")

/-! ## Security check of the routes (server.js:210-215, 239-247,
343-347): join the decoded request path onto `PHOTOS_DIR` and demand
that the resolved string starts with the root string. -/

/-- `path.join(PHOTOS_DIR, requestedPath)`, the requested path split at
`/` into segments. -/
def resolveTarget (root : List String) (rel : String) : List String :=
  joinSegs root (strSplit rel '/')

/-- The security check: `targetDir.startsWith(PHOTOS_DIR)`; `true` means
the request is let through, `false` means HTTP 403 Access denied. -/
def pathAllowed (root : List String) (rel : String) : Bool :=
  jsStartsWith (strOfSegs (resolveTarget root rel)) (strOfSegs root)

/-! ## MediaScanner (`getMediaFilesInDirectory`, server.js:96-140) -/

structure MediaEntry where
  name : String
  fullPath : List String
  relativePath : List String
  directory : String
  size : Nat
  type : String
deriving Repr, DecidableEq

/-- `path.dirname(rel)` mapped through the `'.' ↦ 'Root'` substitution
of server.js:124. -/
def dirLabel (rel : List String) : String :=
  match rel.dropLast with
  | [] => "Root"
  | ds => joinWithSlash ds

/-- The object pushed at server.js:120-128 (modification time not
modeled). -/
def mkMediaEntry (root dirPath : List String) (nm : String) (sz : Nat) :
    MediaEntry :=
  let fullPath := dirPath ++ [nm]
  let rel := relSegs root fullPath
  { name := nm
    fullPath := fullPath
    relativePath := rel
    directory := dirLabel rel
    size := sz
    type := getMediaType nm }

mutual

/-- `getMediaFilesInDirectory(dir, recursive, limit)` (server.js:96-140).
A failing top-level `readdirSync` is caught (server.js:135-137) and the
accumulated — hence empty — list is returned. -/
def getMediaFilesInDirectory (root dirPath : List String) (node : FSNode)
    (recursive : Bool) (limit : Int) : List MediaEntry :=
  match node with
  | .file _ _ _ => []
  | .dir _ false _ _ _ => []
  | .dir _ true _ _ children =>
      scanMediaItems root dirPath children recursive limit 0
termination_by structural node

/-- The `for (const item of items)` loop body of server.js:103-134,
threading the `count` accumulator.  A failing `statSync` is caught and
the item skipped (server.js:131-133). -/
def scanMediaItems (root dirPath : List String) (items : List FSNode)
    (recursive : Bool) (limit count : Int) : List MediaEntry :=
  match items with
  | [] => []
  | item :: rest =>
    if count ≥ limit ∧ recursive = false then []
    else if nodeStatOk item = false then
      scanMediaItems root dirPath rest recursive limit count
    else
      match item with
      | .dir nm rd so sz cs =>
        if recursive then
          let subFiles := getMediaFilesInDirectory root (dirPath ++ [nm])
            (.dir nm rd so sz cs) false (limit - count)
          subFiles ++ scanMediaItems root dirPath rest recursive limit
            (count + subFiles.length)
        else
          scanMediaItems root dirPath rest recursive limit count
      | .file nm _ sz =>
        if isMediaFile nm then
          mkMediaEntry root dirPath nm sz ::
            scanMediaItems root dirPath rest recursive limit (count + 1)
        else
          scanMediaItems root dirPath rest recursive limit count
termination_by structural items

end

/-! ## Spec-side counting helpers -/

def isMediaFileNode : FSNode → Bool
  | .file nm _ _ => isMediaFile nm
  | .dir _ _ _ _ _ => false

/-- The number of entries of a child list that are media files. -/
def directMediaCount (items : List FSNode) : Nat :=
  (items.filter isMediaFileNode).length

/-- The number of entries of a child list that are directories. -/
def directSubdirCount (items : List FSNode) : Nat :=
  (items.filter isDirNode).length

def nodeDirectMedia (node : FSNode) : Nat :=
  directMediaCount (nodeChildren node)

/-- Every entry of the list can be `statSync`ed. -/
def allStatOk (items : List FSNode) : Prop :=
  ∀ c ∈ items, nodeStatOk c = true

/-- All names at the two depths a scan can reach are plain segments. -/
def itemsPlain (items : List FSNode) : Prop :=
  ∀ c ∈ items, isPlainSeg (nodeName c) = true ∧
    ∀ g ∈ nodeChildren c, isPlainSeg (nodeName g) = true

/-! ## DirectoryLister (`getDirectoriesWithCounts`, server.js:39-93) -/

structure DirEntry where
  name : String
  path : List String
  fullPath : List String
  mediaCount : Nat
  subdirectoryCount : Nat
  size : Nat
deriving Repr, DecidableEq

/-- The inner counting loop of server.js:59-69.  The `try` wraps the
whole loop, so a failing `statSync` on one entry aborts the loop and
keeps the counts gathered so far. -/
def countDirItems : List FSNode → Nat → Nat → Nat × Nat
  | [], m, s => (m, s)
  | c :: rest, m, s =>
    if nodeStatOk c = false then (m, s)
    else
      match c with
      | .file nm _ _ =>
        countDirItems rest (if isMediaFile nm then m + 1 else m) s
      | .dir _ _ _ _ _ => countDirItems rest m (s + 1)

/-- The `for (const item of items)` loop of server.js:47-87.  A failing
`statSync` on a child skips that child; a child directory whose own
`readdirSync` fails keeps zero counts (server.js:70-72). -/
def listDirItems (root dirPath : List String) : List FSNode → List DirEntry
  | [] => []
  | item :: rest =>
    if nodeStatOk item = false then listDirItems root dirPath rest
    else
      match item with
      | .file _ _ _ => listDirItems root dirPath rest
      | .dir nm rd _ sz cs =>
        let counts := if rd then countDirItems cs 0 0 else (0, 0)
        { name := nm
          path := relSegs root (dirPath ++ [nm])
          fullPath := dirPath ++ [nm]
          mediaCount := counts.1
          subdirectoryCount := counts.2
          size := sz } :: listDirItems root dirPath rest

def insertDirEntry (e : DirEntry) : List DirEntry → List DirEntry
  | [] => [e]
  | x :: xs =>
    if e.name ≤ x.name then e :: x :: xs else x :: insertDirEntry e xs

/-- `directories.sort((a, b) => a.name.localeCompare(b.name))`
(server.js:92); `localeCompare` is modeled by the character order on
names. -/
def sortDirEntries (l : List DirEntry) : List DirEntry :=
  l.foldr insertDirEntry []

/-- `getDirectoriesWithCounts(dir, maxDepth, currentDepth)`
(server.js:39-93).  A failing top-level `readdirSync` is caught
(server.js:88-90) and the empty list is returned. -/
def getDirectoriesWithCounts (root dirPath : List String) (node : FSNode)
    (maxDepth currentDepth : Int) : List DirEntry :=
  if currentDepth ≥ maxDepth then []
  else
    match node with
    | .file _ _ _ => []
    | .dir _ false _ _ _ => []
    | .dir _ true _ _ items => sortDirEntries (listDirItems root dirPath items)

/-! ## The paginated photos endpoint
(`GET /api/photos/:directory(*)`, server.js:236-281) -/

/-- `parseInt(q) || d`: `parseInt` of a missing or non-numeric
parameter is `NaN` (modeled as `none`), and both `NaN` and `0` are
falsy, so they fall back to the default. -/
def jsOrDefault (v : Option Int) (d : Int) : Int :=
  match v with
  | none => d
  | some n => if n = 0 then d else n

/-- Index clamping of `Array.prototype.slice` for a list of length
`len`: negative indices count from the end. -/
def jsSliceIndex (len : Nat) (i : Int) : Nat :=
  if i < 0 then (len + i).toNat else min i.toNat len

/-- `arr.slice(b, e)`. -/
def jsSlice {α : Type} (l : List α) (b e : Int) : List α :=
  (l.take (jsSliceIndex l.length e)).drop (jsSliceIndex l.length b)

/-- One element of the `photos` array of the response (server.js:258-268);
the `url`/`thumbnail` strings are percent-encoded renderings of
`relativePath` and are not separately modeled. -/
structure PhotoItem where
  id : Int
  name : String
  directory : String
  size : Nat
  type : String
  relativePath : List String
deriving Repr, DecidableEq

def toPhotoItem (offset : Int) (idx : Nat) (e : MediaEntry) : PhotoItem :=
  { id := offset + idx + 1
    name := e.name
    directory := e.directory
    size := e.size
    type := e.type
    relativePath := e.relativePath }

structure PhotosPage where
  photos : List PhotoItem
  totalCount : Nat
  hasMore : Bool
  currentPage : Int
deriving Repr, DecidableEq

/-- The body of the photos route after path resolution
(server.js:253-276). -/
def buildPhotosPage (root dirPath : List String) (node : FSNode)
    (recursive : Bool) (limitQ offsetQ : Option Int) : PhotosPage :=
  let limit := jsOrDefault limitQ 100
  let offset := jsOrDefault offsetQ 0
  let mediaFiles := getMediaFilesInDirectory root dirPath node recursive
    (limit + offset)
  let paginatedFiles := jsSlice mediaFiles offset (offset + limit)
  { photos := paginatedFiles.enum.map fun p => toPhotoItem offset p.1 p.2
    totalCount := mediaFiles.length
    hasMore := (mediaFiles.length : Int) > offset + limit
    currentPage := Int.fdiv offset limit + 1 }

inductive PhotosResult where
  | denied
  | notFound
  | ok (page : PhotosPage)
deriving Repr, DecidableEq

def findChild (nm : String) : List FSNode → Option FSNode
  | [] => none
  | c :: rest => if nodeName c = nm then some c else findChild nm rest

def lookupPath : List String → FSNode → Option FSNode
  | [], node => some node
  | s :: rest, node =>
    match node with
    | .file _ _ _ => none
    | .dir _ _ _ _ cs =>
      match findChild s cs with
      | some c => lookupPath rest c
      | none => none

/-- `fs.existsSync(targetDir)` plus fetching the node: the modeled
file-system consists of the root subtree only, so paths outside it do
not exist. -/
def lookupUnderRoot (root : List String) (fsroot : FSNode)
    (target : List String) : Option FSNode :=
  if root.isPrefixOf target then lookupPath (target.drop root.length) fsroot
  else none

/-- `GET /api/photos/:directory(*)` (server.js:236-281): resolve the
directory against the root, run the string-prefix security check (403),
check existence (404), then scan and paginate (200).
`recursive = req.query.recursive === 'true'`. -/
def photosRoute (root : List String) (fsroot : FSNode) (directory : String)
    (recursiveQ : Option String) (limitQ offsetQ : Option Int) :
    PhotosResult :=
  let target := resolveTarget root directory
  if jsStartsWith (strOfSegs target) (strOfSegs root) = false then
    PhotosResult.denied
  else
    match lookupUnderRoot root fsroot target with
    | none => PhotosResult.notFound
    | some node =>
      PhotosResult.ok (buildPhotosPage root target node
        (recursiveQ == some "true") limitQ offsetQ)

/-- The `hasMore` field of a successful response. -/
def resultHasMore : PhotosResult → Option Bool
  | .ok p => some p.hasMore
  | _ => none

/-- The number of returned photo items of a successful response. -/
def resultLen : PhotosResult → Option Nat
  | .ok p => some p.photos.length
  | _ => none

/-- The `totalCount` field of a successful response. -/
def resultTotal : PhotosResult → Option Nat
  | .ok p => some p.totalCount
  | _ => none

/-- The `currentPage` field of a successful response. -/
def resultPage : PhotosResult → Option Int
  | .ok p => some p.currentPage
  | _ => none

/-- A directory of 25 media files, the scenario of the pagination
tests. -/
def photosDir25 : FSNode :=
  .dir "photos" true true 0
    ((List.range 25).map fun i => .file ("p" ++ toString i ++ ".jpg") true 0)

/-! ## Helper lemmas -/

theorem isPrefixOf_append_self (a b : List Char) :
    a.isPrefixOf (a ++ b) = true := by
  induction a with
  | nil => simp [List.isPrefixOf]
  | cons c cs ih => simp [List.isPrefixOf, ih]

theorem foldl_slash_data (b : List String) (init : String) :
    (List.foldl (fun acc s => acc ++ "/" ++ s) init b).data
      = init.data ++ (strOfSegs b).data := by
  induction b generalizing init with
  | nil => simp [strOfSegs]
  | cons s bs ih =>
    show (List.foldl (fun acc t => acc ++ "/" ++ t) (init ++ "/" ++ s) bs).data
      = init.data ++ (strOfSegs (s :: bs)).data
    have h2 : strOfSegs (s :: bs)
        = List.foldl (fun acc t => acc ++ "/" ++ t) ("" ++ "/" ++ s) bs := rfl
    rw [ih (init ++ "/" ++ s), h2, ih ("" ++ "/" ++ s)]
    simp [String.data_append]

theorem strOfSegs_data_append (a b : List String) :
    (strOfSegs (a ++ b)).data = (strOfSegs a).data ++ (strOfSegs b).data := by
  have ha : strOfSegs (a ++ b)
      = List.foldl (fun acc s => acc ++ "/" ++ s) (strOfSegs a) b := by
    show List.foldl _ "" (a ++ b) = _
    rw [List.foldl_append]
    rfl
  rw [ha, foldl_slash_data]


theorem scanMediaItems_cons (root p : List String) (item : FSNode)
    (rest : List FSNode) (recursive : Bool) (limit count : Int) :
    scanMediaItems root p (item :: rest) recursive limit count =
      if count ≥ limit ∧ recursive = false then []
      else if nodeStatOk item = false then
        scanMediaItems root p rest recursive limit count
      else
        match item with
        | .dir nm rd so sz cs =>
          if recursive then
            let subFiles := getMediaFilesInDirectory root (p ++ [nm])
              (.dir nm rd so sz cs) false (limit - count)
            subFiles ++ scanMediaItems root p rest recursive limit
              (count + subFiles.length)
          else
            scanMediaItems root p rest recursive limit count
        | .file nm _ sz =>
          if isMediaFile nm then
            mkMediaEntry root p nm sz ::
              scanMediaItems root p rest recursive limit (count + 1)
          else
            scanMediaItems root p rest recursive limit count := by
  rw [scanMediaItems.eq_def]

theorem scanMediaItems_nil (root p : List String) (recursive : Bool)
    (limit count : Int) :
    scanMediaItems root p [] recursive limit count = [] := by
  rw [scanMediaItems.eq_def]

theorem scanMediaItems_nr_le (root p : List String) (items : List FSNode)
    (limit count : Int) :
    (scanMediaItems root p items false limit count).length
      ≤ (limit - count).toNat := by
  induction items generalizing count with
  | nil => simp [scanMediaItems_nil]
  | cons item rest ih =>
    rw [scanMediaItems_cons]
    by_cases hg : count ≥ limit
    · simp [hg]
    · have hgc : ¬(count ≥ limit ∧ (false : Bool) = false) := by simp [hg]
      rw [if_neg hgc]
      by_cases hs : nodeStatOk item = false
    
      · rw [if_pos hs]; exact ih count
      · rw [if_neg hs]
        cases item with
        | dir nm rd so sz cs =>
          simp only [Bool.false_eq_true, if_false]
          exact ih count
        | file nm ok sz =>
          dsimp only
          by_cases hm : isMediaFile nm
          · rw [if_pos hm]
            have h2 := ih (count + 1)
            simp only [List.length_cons]
            omega
          · rw [if_neg hm]; exact ih count

theorem getMediaFilesInDirectory_nr_le (root p : List String) (node : FSNode)
    (limit : Int) :
    (getMediaFilesInDirectory root p node false limit).length ≤ limit.toNat := by
  rw [getMediaFilesInDirectory.eq_def]
  cases node with
  | file nm ok sz => simp
  | dir nm rd so sz cs =>
    cases rd with
    | false => simp
    | true =>
      simpa using scanMediaItems_nr_le root p cs limit 0

theorem scanMediaItems_nr_exact (root p : List String) (items : List FSNode)
    (limit count : Int) (hstat : allStatOk items) :
    (scanMediaItems root p items false limit count).length
      = min (limit - count).toNat (directMediaCount items) := by
  revert hstat
  induction items generalizing count with
  | nil => intro hstat; simp [scanMediaItems_nil, directMediaCount]
  | cons item rest ih =>
    intro hstat
    have hstat1 : nodeStatOk item = true := hstat item (by simp)
    have hstatr : allStatOk rest := fun c hc => hstat c (List.mem_cons_of_mem _ hc)
    rw [scanMediaItems_cons]
    by_cases hg : count ≥ limit
    · have ht : (limit - count).toNat = 0 := by omega
      simp [hg, ht]
    · have hgc : ¬(count ≥ limit ∧ (false : Bool) = false) := by simp [hg]
      rw [if_neg hgc, if_neg (by simp [hstat1])]
      cases item with
      | dir nm rd so sz cs =>
        simp only [Bool.false_eq_true, if_false]
        rw [ih count hstatr]
        simp [directMediaCount, isMediaFileNode]
      | file nm ok sz =>
        dsimp only
        by_cases hm : isMediaFile nm
        · rw [if_pos hm]
          rw [List.length_cons, ih (count + 1) hstatr]
          have hdm : directMediaCount (FSNode.file nm ok sz :: rest)
              = directMediaCount rest + 1 := by
            simp [directMediaCount, isMediaFileNode, hm]
          rw [hdm]
          omega
        · rw [if_neg hm]
          rw [ih count hstatr]
          have hdm : directMediaCount (FSNode.file nm ok sz :: rest)
              = directMediaCount rest := by
            simp [directMediaCount, isMediaFileNode, hm]
          rw [hdm]

theorem getMediaFilesInDirectory_eq (root p : List String) (node : FSNode)
    (recursive : Bool) (limit : Int) :
    getMediaFilesInDirectory root p node recursive limit =
      match node with
      | .file _ _ _ => []
      | .dir _ false _ _ _ => []
      | .dir _ true _ _ children =>
        scanMediaItems root p children recursive limit 0 := by
  rw [getMediaFilesInDirectory.eq_def]

theorem directMediaCount_cons (c : FSNode) (rest : List FSNode) :
    directMediaCount (c :: rest)
      = (if isMediaFileNode c then 1 else 0) + directMediaCount rest := by
  simp only [directMediaCount, List.filter_cons]
  split
  · simp [Nat.add_comm]
  · simp

theorem scanMediaItems_rec_le (root p : List String) (items : List FSNode)
    (limit count : Int) :
    (scanMediaItems root p items true limit count).length
      ≤ directMediaCount items + (limit - count).toNat := by
  induction items generalizing count with
  | nil => simp [scanMediaItems_nil]
  | cons item rest ih =>
    rw [scanMediaItems_cons]
    have hgc : ¬(count ≥ limit ∧ (true : Bool) = false) := by simp
    rw [if_neg hgc, directMediaCount_cons]
    by_cases hs : nodeStatOk item = false
    · rw [if_pos hs]
      have h2 := ih count
      omega
    · rw [if_neg hs]
      cases item with
      | dir nm rd so sz cs =>
        dsimp only
        rw [if_pos rfl]
        have hsub := getMediaFilesInDirectory_nr_le root (p ++ [nm])
          (.dir nm rd so sz cs) (limit - count)
        have h2 := ih (count +
          (getMediaFilesInDirectory root (p ++ [nm]) (.dir nm rd so sz cs)
            false (limit - count)).length)
        simp only [List.length_append, isMediaFileNode]
        omega
      | file nm ok sz =>
        dsimp only
        by_cases hm : isMediaFile nm
        · rw [if_pos hm]
          have h2 := ih (count + 1)
          simp only [List.length_cons, isMediaFileNode, hm, if_true]
          omega
        · rw [if_neg hm]
          have h2 := ih count
          simp only [isMediaFileNode, hm, if_false]
          omega

theorem getMediaFilesInDirectory_rec_le (root p : List String) (node : FSNode)
    (limit : Int) :
    (getMediaFilesInDirectory root p node true limit).length
      ≤ nodeDirectMedia node + limit.toNat := by
  rw [getMediaFilesInDirectory_eq]
  cases node with
  | file nm ok sz => simp
  | dir nm rd so sz cs =>
    cases rd with
    | false => simp
    | true =>
      have h := scanMediaItems_rec_le root p cs limit 0
      simpa [nodeDirectMedia, nodeChildren] using h

theorem mem_scanMediaItems_nr (root p : List String) (items : List FSNode)
    (limit count : Int) (e : MediaEntry)
    (h : e ∈ scanMediaItems root p items false limit count) :
    ∃ nm sz, FSNode.file nm true sz ∈ items ∧ e = mkMediaEntry root p nm sz := by
  induction items generalizing count with
  | nil => simp [scanMediaItems_nil] at h
  | cons item rest ih =>
    rw [scanMediaItems_cons] at h
    by_cases hg : count ≥ limit
    · simp [hg] at h
    · have hgc : ¬(count ≥ limit ∧ (false : Bool) = false) := by simp [hg]
      rw [if_neg hgc] at h
      by_cases hs : nodeStatOk item = false
      · rw [if_pos hs] at h
        obtain ⟨nm, sz, hmem, he⟩ := ih count h
        exact ⟨nm, sz, List.mem_cons_of_mem _ hmem, he⟩
      · rw [if_neg hs] at h
        cases item with
        | dir nm rd so sz cs =>
          simp only [Bool.false_eq_true, if_false] at h
          obtain ⟨nm2, sz2, hmem, he⟩ := ih count h
          exact ⟨nm2, sz2, List.mem_cons_of_mem _ hmem, he⟩
        | file nm ok sz =>
          have hok : ok = true := by
            simpa [nodeStatOk] using hs
          dsimp only at h
          by_cases hm : isMediaFile nm
          · rw [if_pos hm] at h
            rcases List.mem_cons.mp h with he | h2
            · exact ⟨nm, sz, by simp [hok], he⟩
            · obtain ⟨nm2, sz2, hmem, he⟩ := ih (count + 1) h2
              exact ⟨nm2, sz2, List.mem_cons_of_mem _ hmem, he⟩
          · rw [if_neg hm] at h
            obtain ⟨nm2, sz2, hmem, he⟩ := ih count h
            exact ⟨nm2, sz2, List.mem_cons_of_mem _ hmem, he⟩

theorem mem_scanMediaItems_rec (root p : List String) (items : List FSNode)
    (limit count : Int) (e : MediaEntry)
    (h : e ∈ scanMediaItems root p items true limit count) :
    (∃ nm sz, FSNode.file nm true sz ∈ items ∧ e = mkMediaEntry root p nm sz)
    ∨ (∃ c ∈ items, isDirNode c = true ∧
        ∃ fn fsz, FSNode.file fn true fsz ∈ nodeChildren c ∧
          e = mkMediaEntry root (p ++ [nodeName c]) fn fsz) := by
  induction items generalizing count with
  | nil => simp [scanMediaItems_nil] at h
  | cons item rest ih =>
    rw [scanMediaItems_cons] at h
    have hgc : ¬(count ≥ limit ∧ (true : Bool) = false) := by simp
    rw [if_neg hgc] at h
    by_cases hs : nodeStatOk item = false
    · rw [if_pos hs] at h
      rcases ih count h with ⟨nm, sz, hmem, he⟩ | ⟨c, hmem, hc⟩
      · exact Or.inl ⟨nm, sz, List.mem_cons_of_mem _ hmem, he⟩
      · exact Or.inr ⟨c, List.mem_cons_of_mem _ hmem, hc⟩
    · rw [if_neg hs] at h
      cases item with
      | dir nm rd so sz cs =>
        dsimp only at h
        rw [if_pos rfl] at h
        rcases List.mem_append.mp h with hsub | hrest
        · rw [getMediaFilesInDirectory_eq] at hsub
          cases rd with
          | false => simp at hsub
          | true =>
            obtain ⟨fn, fsz, hmem, he⟩ :=
              mem_scanMediaItems_nr root (p ++ [nm]) cs (limit - count) 0 e hsub
            exact Or.inr ⟨FSNode.dir nm true so sz cs, by simp,
              rfl, fn, fsz, hmem, he⟩
        · rcases ih _ hrest with ⟨nm2, sz2, hmem, he⟩ | ⟨c, hmem, hc⟩
          · exact Or.inl ⟨nm2, sz2, List.mem_cons_of_mem _ hmem, he⟩
          · exact Or.inr ⟨c, List.mem_cons_of_mem _ hmem, hc⟩
      | file nm ok sz =>
        have hok : ok = true := by simpa [nodeStatOk] using hs
        dsimp only at h
        by_cases hm : isMediaFile nm
        · rw [if_pos hm] at h
          rcases List.mem_cons.mp h with he | h2
          · exact Or.inl ⟨nm, sz, by simp [hok], he⟩
          · rcases ih (count + 1) h2 with ⟨nm2, sz2, hmem, he⟩ | ⟨c, hmem, hc⟩
            · exact Or.inl ⟨nm2, sz2, List.mem_cons_of_mem _ hmem, he⟩
            · exact Or.inr ⟨c, List.mem_cons_of_mem _ hmem, hc⟩
        · rw [if_neg hm] at h
          rcases ih count h with ⟨nm2, sz2, hmem, he⟩ | ⟨c, hmem, hc⟩
          · exact Or.inl ⟨nm2, sz2, List.mem_cons_of_mem _ hmem, he⟩
          · exact Or.inr ⟨c, List.mem_cons_of_mem _ hmem, hc⟩

theorem commonPrefixLen_self_append (a b : List String) :
    commonPrefixLen a (a ++ b) = a.length := by
  induction a with
  | nil => cases b <;> simp [commonPrefixLen]
  | cons s rest ih => simp [commonPrefixLen, ih]

theorem relSegs_self_append (a b : List String) :
    relSegs a (a ++ b) = b := by
  simp [relSegs, commonPrefixLen_self_append, List.drop_left]

theorem isPlainSeg_spec (s : String) (h : isPlainSeg s = true) :
    s ≠ "" ∧ s ≠ "." ∧ s ≠ ".." := by
  simp only [isPlainSeg, Bool.not_eq_true', Bool.or_eq_false_iff,
    beq_eq_false_iff_ne, ne_eq] at h
  exact ⟨h.1.1, h.1.2, h.2⟩

theorem collapse_plain (l : List String) (acc : List String)
    (h : ∀ s ∈ l, isPlainSeg s = true) :
    collapse acc l = acc.reverse ++ l := by
  induction l generalizing acc with
  | nil => simp [collapse]
  | cons s rest ih =>
    obtain ⟨h1, h2, h3⟩ := isPlainSeg_spec s (h s (by simp))
    rw [collapse.eq_def]
    simp only []
    rw [if_neg (by tauto), if_neg h3,
      ih (s :: acc) (fun t ht => h t (List.mem_cons_of_mem _ ht))]
    simp

theorem joinSegs_plain (a b : List String)
    (ha : ∀ s ∈ a, isPlainSeg s = true) (hb : ∀ s ∈ b, isPlainSeg s = true) :
    joinSegs a b = a ++ b := by
  rw [joinSegs, collapse_plain]
  · simp
  · intro s hs
    rcases List.mem_append.mp hs with h | h
    · exact ha s h
    · exact hb s h

theorem mem_insertDirEntry (e x : DirEntry) (l : List DirEntry) :
    x ∈ insertDirEntry e l ↔ x = e ∨ x ∈ l := by
  induction l with
  | nil => simp [insertDirEntry]
  | cons y ys ih =>
    rw [insertDirEntry]
    split
    · simp
    · simp only [List.mem_cons, ih]
      tauto

theorem mem_sortDirEntries (x : DirEntry) (l : List DirEntry) :
    x ∈ sortDirEntries l ↔ x ∈ l := by
  induction l with
  | nil => simp [sortDirEntries]
  | cons y ys ih =>
    show x ∈ insertDirEntry y (sortDirEntries ys) ↔ _
    rw [mem_insertDirEntry]
    simp [ih]

theorem countDirItems_eq (cs : List FSNode) (hstat : allStatOk cs)
    (m s : Nat) :
    countDirItems cs m s
      = (m + directMediaCount cs, s + directSubdirCount cs) := by
  induction cs generalizing m s with
  | nil => simp [countDirItems, directMediaCount, directSubdirCount]
  | cons c rest ih =>
    have hc : nodeStatOk c = true := hstat c (by simp)
    have hrest : allStatOk rest := fun t ht => hstat t (List.mem_cons_of_mem _ ht)
    rw [countDirItems.eq_def]
    simp only []
    rw [if_neg (by simp [hc])]
    cases c with
    | file nm ok sz =>
      dsimp only
      rw [ih hrest]
      by_cases hm : isMediaFile nm
      · simp [directMediaCount, directSubdirCount, List.filter_cons,
          isMediaFileNode, isDirNode, hm, Nat.add_comm, Nat.add_assoc,
          Nat.add_left_comm]
      · simp [directMediaCount, directSubdirCount, List.filter_cons,
          isMediaFileNode, isDirNode, hm]
    | dir nm rd so sz ccs =>
      dsimp only
      rw [ih hrest]
      simp [directMediaCount, directSubdirCount, List.filter_cons,
        isMediaFileNode, isDirNode, Nat.add_comm, Nat.add_assoc,
        Nat.add_left_comm]

theorem mem_listDirItems (root p : List String) (items : List FSNode)
    (e : DirEntry) (h : e ∈ listDirItems root p items) :
    ∃ nm rd so sz cs, FSNode.dir nm rd so sz cs ∈ items ∧ so = true ∧
      e = { name := nm
            path := relSegs root (p ++ [nm])
            fullPath := p ++ [nm]
            mediaCount := (if rd then countDirItems cs 0 0 else (0, 0)).1
            subdirectoryCount := (if rd then countDirItems cs 0 0 else (0, 0)).2
            size := sz } := by
  induction items with
  | nil => simp [listDirItems] at h
  | cons item rest ih =>
    rw [listDirItems.eq_def] at h
    simp only [] at h
    by_cases hs : nodeStatOk item = false
    · rw [if_pos hs] at h
      obtain ⟨nm, rd, so, sz, cs, hmem, hso, he⟩ := ih h
      exact ⟨nm, rd, so, sz, cs, List.mem_cons_of_mem _ hmem, hso, he⟩
    · rw [if_neg hs] at h
      cases item with
      | file nm ok sz =>
        dsimp only at h
        obtain ⟨nm2, rd, so, sz2, cs, hmem, hso, he⟩ := ih h
        exact ⟨nm2, rd, so, sz2, cs, List.mem_cons_of_mem _ hmem, hso, he⟩
      | dir nm rd so sz cs =>
        have hso : so = true := by simpa [nodeStatOk] using hs
        dsimp only at h
        rcases List.mem_cons.mp h with he | h2
        · exact ⟨nm, rd, so, sz, cs, by simp, hso, he⟩
        · obtain ⟨nm2, rd2, so2, sz2, cs2, hmem, hso2, he⟩ := ih h2
          exact ⟨nm2, rd2, so2, sz2, cs2, List.mem_cons_of_mem _ hmem, hso2, he⟩


/-- A single-step unfolding helper for the round-trip argument: joining
a scanned entry's `relativePath` back onto the root reproduces its
`fullPath`, provided the scan directory extends the root and all
segments involved are plain. -/
theorem mkMediaEntry_roundtrip (root t : List String) (nm : String) (sz : Nat)
    (hroot : ∀ s ∈ root, isPlainSeg s = true)
    (ht : ∀ s ∈ t, isPlainSeg s = true)
    (hnm : isPlainSeg nm = true) :
    joinSegs root (mkMediaEntry root (root ++ t) nm sz).relativePath
      = (mkMediaEntry root (root ++ t) nm sz).fullPath := by
  show joinSegs root (relSegs root ((root ++ t) ++ [nm])) = (root ++ t) ++ [nm]
  rw [List.append_assoc, relSegs_self_append, joinSegs_plain]
  · exact hroot
  · intro s hs
    rcases List.mem_append.mp hs with h | h
    · exact ht s h
    · rw [List.mem_singleton.mp h]; exact hnm

/-- Claim C1: the configured work limit is claimed to be a hard ceiling
on the number of returned entries in recursive mode as well as
non-recursive mode.  The code only enforces the limit in non-recursive
mode (`count >= limit && !recursive`, server.js:104), contradicting the
code's own comment "still respect overall limit" (server.js:112): a
recursive scan of a directory holding two media files with limit 1
returns both.  The bound that actually holds: non-recursive results are
at most the limit, and recursive results are at most the limit plus the
number of the scanned directory's direct media children. -/
theorem C1_work_limit :
    (getMediaFilesInDirectory ["r"] ["r"]
        (.dir "r" true true 0 [.file "a.jpg" true 0, .file "b.jpg" true 0])
        true 1).length = 2
    ∧ (∀ (root p : List String) (node : FSNode) (L : Int),
        (getMediaFilesInDirectory root p node false L).length ≤ L.toNat)
    ∧ (∀ (root p : List String) (node : FSNode) (L : Int),
        (getMediaFilesInDirectory root p node true L).length
          ≤ nodeDirectMedia node + L.toNat) := by
  refine ⟨by decide, ?_, ?_⟩
  · intro root p node L
    exact getMediaFilesInDirectory_nr_le root p node L
  · intro root p node L
    exact getMediaFilesInDirectory_rec_le root p node L

/-- Claim C2, counterexample: the request path `a/../b` contains a `..`
segment but resolves back inside the root, and the check lets it
through; moreover `../photos2/x` resolves outside the root (to the
sibling `photos2`) yet also passes the string-prefix check.  Both refute
"every path with a `..` segment or resolving outside the root is
denied". -/
theorem C2_counterexample :
    ((strSplit "a/../b" '/').contains ".." = true
      ∧ pathAllowed ["photos"] "a/../b" = true)
    ∧ (resolveTarget ["photos"] "../photos2/x" = ["photos2", "x"]
      ∧ pathAllowed ["photos"] "../photos2/x" = true) := by
  decide

/-- Claim C2, amended: the check is only the string-prefix test on the
joined-and-normalized path — every request resolving inside the root
subtree is allowed, `..` segments or not, while escapes such as
`../../etc` whose resolution does not extend the root string are
denied. -/
theorem C2_prefix_check (root : List String) (rel : String)
    (rest : List String) (h : resolveTarget root rel = root ++ rest) :
    pathAllowed root rel = true
    ∧ pathAllowed ["photos"] "../../etc" = false := by
  constructor
  · rw [pathAllowed, h, jsStartsWith, strOfSegs_data_append]
    exact isPrefixOf_append_self _ _
  · decide

theorem C2_prefix_check_witness :
    resolveTarget ["photos"] "a/../b" = ["photos"] ++ ["b"]
    ∧ pathAllowed ["photos"] "a/../b" = true :=
  ⟨by decide, (C2_prefix_check ["photos"] "a/../b" ["b"] (by decide)).1⟩

/-- Claim C3, counterexample: a recursive scan with a large remaining
budget never reaches a grandchild directory.  The tree
`r/A/B/x.jpg` yields no entries even though scanning `B` directly finds
`x.jpg` — the recursive call at server.js:113 passes `recursive =
false` to the child, so `B` is skipped inside the scan of `A`. -/
theorem C3_counterexample :
    getMediaFilesInDirectory ["r"] ["r"]
      (.dir "r" true true 0
        [.dir "A" true true 0 [.dir "B" true true 0 [.file "x.jpg" true 0]]])
      true 10 = []
    ∧ (getMediaFilesInDirectory ["r", "A"] ["r", "A"]
        (.dir "B" true true 0 [.file "x.jpg" true 0]) true 10).length = 1 := by
  decide

/-- Claim C3, amended: recursive mode descends exactly one level —
immediate sub-directories are scanned non-recursively with the
remaining budget, so grandchild directories are never visited, and
every returned entry lies at most two segments below the scanned
directory. -/
theorem C3_depth_bound (root p : List String) (node : FSNode) (L : Int) :
    ∀ e ∈ getMediaFilesInDirectory root p node true L,
      e.fullPath.length ≤ p.length + 2 := by
  intro e he
  rw [getMediaFilesInDirectory_eq] at he
  cases node with
  | file nm ok sz => simp at he
  | dir nm rd so sz cs =>
    cases rd with
    | false => simp at he
    | true =>
      rcases mem_scanMediaItems_rec root p cs L 0 e he with
        ⟨nm2, sz2, _, he2⟩ | ⟨c, _, _, fn, fsz, _, he2⟩
      · subst he2; simp [mkMediaEntry]
      · subst he2; simp [mkMediaEntry]

theorem C3_depth_bound_witness :
    (mkMediaEntry ["r"] ["r", "A"] "x.jpg" 0).fullPath.length
      ≤ (["r"] : List String).length + 2 :=
  C3_depth_bound ["r"] ["r"]
    (.dir "r" true true 0 [.dir "A" true true 0 [.file "x.jpg" true 0]]) 10
    (mkMediaEntry ["r"] ["r", "A"] "x.jpg" 0) (by decide)

/-- Claim C4, counterexample: against a directory of 25 direct media
files, `offset=0&limit=10` yields `hasMore = false`, not `true` — the
scanner is invoked with work limit `limit + offset = 10`, so
`totalCount` caps at 10 and `hasMore = (10 > 10)` is false. -/
theorem C4_counterexample :
    resultHasMore (photosRoute ["photos"] photosDir25 "" none
      (some 10) (some 0)) = some false := by
  decide

/-- Claim C4, amended: for `offset=0&limit=10` against 25 direct media
files the page has 10 items, `totalCount = 10`, `currentPage = 1` and
`hasMore = false` (the scan is bounded by `limit + offset`); for
`offset=20&limit=10` the page has 5 items and `hasMore = false`. -/
theorem C4_pagination :
    (resultLen (photosRoute ["photos"] photosDir25 "" none
        (some 10) (some 0)) = some 10
      ∧ resultTotal (photosRoute ["photos"] photosDir25 "" none
        (some 10) (some 0)) = some 10
      ∧ resultPage (photosRoute ["photos"] photosDir25 "" none
        (some 10) (some 0)) = some 1)
    ∧ (resultLen (photosRoute ["photos"] photosDir25 "" none
        (some 10) (some 20)) = some 5
      ∧ resultHasMore (photosRoute ["photos"] photosDir25 "" none
        (some 10) (some 20)) = some false) := by
  decide

/-- Claim C5, counterexample: requesting photos of an existing but
unreadable directory succeeds with HTTP 200 and an empty page — not
HTTP 500 — because `getMediaFilesInDirectory` catches its own top-level
`readdirSync` failure (server.js:135-137) and returns an empty array,
so the route's 500 handler never fires. -/
theorem C5_counterexample :
    photosRoute ["photos"]
      (.dir "photos" true true 0 [.dir "d" false true 0 [.file "a.jpg" true 0]])
      "d" none none none
    = PhotosResult.ok
        { photos := [], totalCount := 0, hasMore := false, currentPage := 1 } := by
  decide

/-- Claim C5, amended: a top-level read failure is swallowed, not
propagated — both scan functions return the empty list for an
unreadable target, and the photos endpoint answers HTTP 200 with an
empty page, indistinguishable from an empty directory. -/
theorem C5_unreadable_swallowed :
    (∀ (root p : List String) (nm : String) (so : Bool) (sz : Nat)
        (cs : List FSNode) (rec : Bool) (L : Int),
      getMediaFilesInDirectory root p (.dir nm false so sz cs) rec L = [])
    ∧ (∀ (root p : List String) (nm : String) (so : Bool) (sz : Nat)
        (cs : List FSNode),
      getDirectoriesWithCounts root p (.dir nm false so sz cs) 1 0 = [])
    ∧ photosRoute ["photos"]
        (.dir "photos" true true 0 [.dir "d" false true 0 [.file "a.jpg" true 0]])
        "d" none (some 7) (some 3)
      = PhotosResult.ok
          { photos := [], totalCount := 0, hasMore := false, currentPage := 1 } := by
  refine ⟨?_, ?_, by decide⟩
  · intro root p nm so sz cs rec L
    rw [getMediaFilesInDirectory_eq]
  · intro root p nm so sz cs
    simp [getDirectoriesWithCounts]

/-- Claim C6: a non-recursive scan with work limit `L` over a readable
directory whose entries can all be stat'ed returns exactly
`min L (number of direct media children)` entries. -/
theorem C6_nonrecursive_exact (root p : List String) (nm : String)
    (so : Bool) (sz : Nat) (items : List FSNode) (L : Int)
    (hstat : allStatOk items) :
    (getMediaFilesInDirectory root p (.dir nm true so sz items) false L).length
      = min L.toNat (directMediaCount items) := by
  rw [getMediaFilesInDirectory_eq]
  have h := scanMediaItems_nr_exact root p items L 0 hstat
  simpa using h

theorem C6_nonrecursive_exact_witness :
    (getMediaFilesInDirectory ["r"] ["r"]
        (.dir "r" true true 0
          [.file "a.jpg" true 0, .file "b.txt" true 0, .file "c.png" true 0,
            .file "d.gif" true 0])
        false 2).length
      = min (Int.toNat 2)
          (directMediaCount
            [.file "a.jpg" true 0, .file "b.txt" true 0, .file "c.png" true 0,
              .file "d.gif" true 0]) :=
  C6_nonrecursive_exact ["r"] ["r"] "r" true 0
    [.file "a.jpg" true 0, .file "b.txt" true 0, .file "c.png" true 0,
      .file "d.gif" true 0] 2 (by unfold allStatOk; decide)

/-- Claim C7: every directory entry reported by the lister carries the
counts of its *direct* children only: `mediaCount` is the number of
direct media-file children and `subdirectoryCount` the number of direct
sub-directories, for each listed child that is readable and whose
children can be stat'ed; deeper descendants are never included. -/
theorem C7_lister_counts (root p : List String) (nm : String) (so : Bool)
    (sz : Nat) (items : List FSNode)
    (hrd : ∀ c ∈ items, isDirNode c = true → dirReadable c = true)
    (hstat : ∀ c ∈ items, allStatOk (nodeChildren c)) :
    ∀ e ∈ getDirectoriesWithCounts root p (.dir nm true so sz items) 1 0,
      ∃ c ∈ items, isDirNode c = true ∧ nodeName c = e.name ∧
        e.mediaCount = directMediaCount (nodeChildren c) ∧
        e.subdirectoryCount = directSubdirCount (nodeChildren c) := by
  intro e he
  unfold getDirectoriesWithCounts at he
  rw [if_neg (by norm_num)] at he
  dsimp only at he
  rw [mem_sortDirEntries] at he
  obtain ⟨nm2, rd, so2, sz2, cs, hmem, hso, he2⟩ :=
    mem_listDirItems root p items e he
  have hrd2 : rd = true := by
    simpa [dirReadable] using hrd _ hmem (by rfl)
  subst hrd2
  have hcs : allStatOk cs := by
    simpa [nodeChildren] using hstat _ hmem
  have hcount := countDirItems_eq cs hcs 0 0
  subst he2
  refine ⟨FSNode.dir nm2 true so2 sz2 cs, hmem, rfl, rfl, ?_, ?_⟩
  · simp [hcount, nodeChildren]
  · simp [hcount, nodeChildren]

theorem C7_lister_counts_witness :
    ∃ c ∈ [FSNode.dir "z" true true 7
        [.file "a.jpg" true 0, .file "b.txt" true 0,
          .dir "w" true true 0 [.file "deep.jpg" true 0]]],
      isDirNode c = true ∧ nodeName c = "z" ∧
        1 = directMediaCount (nodeChildren c) ∧
        1 = directSubdirCount (nodeChildren c) :=
  C7_lister_counts ["r"] ["r"] "r" true 0
    [FSNode.dir "z" true true 7
      [.file "a.jpg" true 0, .file "b.txt" true 0,
        .dir "w" true true 0 [.file "deep.jpg" true 0]]]
    (by decide) (by unfold allStatOk; decide)
    { name := "z", path := ["z"], fullPath := ["r", "z"], mediaCount := 1,
      subdirectoryCount := 1, size := 7 }
    (by decide)

/-- Claim C8, counterexample: a negative `limit` is *not* normalized to
the default 100 — `parseInt(q) || 100` only replaces `NaN` and `0`, so
`limit=-5` is used as given: the scan is invoked with a negative work
limit and finds nothing, unlike the default. -/
theorem C8_counterexample :
    jsOrDefault (some (-5)) 100 = -5
    ∧ resultTotal (photosRoute ["photos"]
        (.dir "photos" true true 0 [.file "a.jpg" true 0]) "" none
        (some (-5)) none) = some 0
    ∧ resultTotal (photosRoute ["photos"]
        (.dir "photos" true true 0 [.file "a.jpg" true 0]) "" none
        none none) = some 1 := by
  decide

/-- Claim C8, amended: missing/non-numeric (`NaN`) and zero pagination
parameters are normalized to the defaults, but any non-zero value —
negative values included — is used as given. -/
theorem C8_normalization (d : Int) :
    jsOrDefault none d = d ∧ jsOrDefault (some 0) d = d
    ∧ ∀ n : Int, n ≠ 0 → jsOrDefault (some n) d = n := by
  refine ⟨rfl, rfl, ?_⟩
  intro n hn
  simp [jsOrDefault, hn]

theorem C8_normalization_witness :
    jsOrDefault none 100 = 100 ∧ jsOrDefault (some 0) 100 = 100
    ∧ jsOrDefault (some (-5)) 100 = -5 :=
  ⟨(C8_normalization 100).1, (C8_normalization 100).2.1,
    (C8_normalization 100).2.2 (-5) (by decide)⟩

/-- Claim C9: joining a scanned entry's `relativePath` back onto the
root (the path-resolution step of the file-serving endpoints,
server.js:343) reproduces the entry's `fullPath`, whenever the scanned
directory lies below the root and all names are plain path segments. -/
theorem C9_roundtrip (root p : List String) (node : FSNode) (rec : Bool)
    (L : Int) (hpre : root <+: p)
    (hplainp : ∀ s ∈ p, isPlainSeg s = true)
    (hplainn : itemsPlain (nodeChildren node)) :
    ∀ e ∈ getMediaFilesInDirectory root p node rec L,
      joinSegs root e.relativePath = e.fullPath := by
  intro e he
  rw [getMediaFilesInDirectory_eq] at he
  obtain ⟨t, ht⟩ := hpre
  have hroot : ∀ s ∈ root, isPlainSeg s = true := by
    intro s hs
    exact hplainp s (ht ▸ List.mem_append.mpr (Or.inl hs))
  have htp : ∀ s ∈ t, isPlainSeg s = true := by
    intro s hs
    exact hplainp s (ht ▸ List.mem_append.mpr (Or.inr hs))
  cases node with
  | file nm ok sz => simp at he
  | dir nm rd so sz cs =>
    cases rd with
    | false => simp at he
    | true =>
      have hplain : itemsPlain cs := hplainn
      cases rec with
      | false =>
        obtain ⟨nmf, szf, hmem, he2⟩ :=
          mem_scanMediaItems_nr root p cs L 0 e he
        subst he2
        have hnm : isPlainSeg nmf = true := by
          simpa [nodeName] using (hplain _ hmem).1
        rw [← ht]
        exact mkMediaEntry_roundtrip root t nmf szf hroot htp hnm
      | true =>
        rcases mem_scanMediaItems_rec root p cs L 0 e he with
          ⟨nmf, szf, hmem, he2⟩ | ⟨c, hc, _, fn, fsz, hg, he2⟩
        · subst he2
          have hnm : isPlainSeg nmf = true := by
            simpa [nodeName] using (hplain _ hmem).1
          rw [← ht]
          exact mkMediaEntry_roundtrip root t nmf szf hroot htp hnm
        · subst he2
          have hcn : isPlainSeg (nodeName c) = true := (hplain c hc).1
          have hfn : isPlainSeg fn = true := by
            simpa [nodeName] using (hplain c hc).2 _ hg
          have ht2 : ∀ s ∈ t ++ [nodeName c], isPlainSeg s = true := by
            intro s hs
            rcases List.mem_append.mp hs with h | h
            · exact htp s h
            · rw [List.mem_singleton.mp h]; exact hcn
          have hd : p ++ [nodeName c] = root ++ (t ++ [nodeName c]) := by
            rw [← ht, List.append_assoc]
          rw [hd]
          exact mkMediaEntry_roundtrip root (t ++ [nodeName c]) fn fsz
            hroot ht2 hfn

theorem C9_roundtrip_witness :
    joinSegs ["photos"] (mkMediaEntry ["photos"] ["photos"] "a.jpg" 5).relativePath
      = (mkMediaEntry ["photos"] ["photos"] "a.jpg" 5).fullPath :=
  C9_roundtrip ["photos"] ["photos"]
    (.dir "photos" true true 0 [.file "a.jpg" true 5]) false 100
    ⟨[], rfl⟩ (by decide) (by unfold itemsPlain; decide)
    (mkMediaEntry ["photos"] ["photos"] "a.jpg" 5) (by decide)

/-- Claim C10: `getMediaType` is total with range {image, video}; on any
filename that is not a media file at all — `notes.txt`, a name with no
extension — it returns "image", so its output is only meaningful once
`isMediaFile` has been consulted. -/
theorem C10_nonmedia_is_image :
    (∀ f : String, getMediaType f = "image" ∨ getMediaType f = "video")
    ∧ ∀ f : String, isMediaFile f = false → getMediaType f = "image" := by
  constructor
  · intro f
    by_cases h : strToLower (extname f) ∈ videoExts
    · right; simp [getMediaType, h]
    · left; simp [getMediaType, h]
  · intro f h
    have h2 : videoExts.contains (strToLower (extname f)) = false := by
      simp only [isMediaFile, Bool.or_eq_false_iff] at h
      exact h.2
    have h3 : strToLower (extname f) ∉ videoExts := by simpa using h2
    simp [getMediaType, h3]

theorem C10_nonmedia_is_image_witness :
    isMediaFile "notes.txt" = false ∧ getMediaType "notes.txt" = "image" :=
  ⟨by decide, C10_nonmedia_is_image.2 "notes.txt" (by decide)⟩

end LocalPhotos
